import Mathlib

/-!
Shallow embedding of the PesaLink bulk account validator — the data model
(`app/models`), the validation pipeline (`app/core/validator.py`,
`app/core/processor.py`), the remote client (`app/api/pesalink_client.py`)
and the error classifier (`app/core/error_handler.py`) — together with
proofs of the specification claims about it.
-/

set_option autoImplicit false

namespace PesaLink

/-- Dynamically typed field value: Python dataclass annotations are not
enforced, so `Account.from_dict` can store `None` (a missing key) or a
non-string value in an identifier field.  `vStr` is a text value, `vInt`
a number, `vNone` is Python `None`. -/
inductive PyVal
  | vNone
  | vStr (s : String)
  | vInt (n : Int)
deriving DecidableEq

/-- Python truthiness of a field value (`not x` in the source negates this):
`None`, `""` and `0` are falsy. -/
def PyVal.truthy : PyVal → Bool
  | .vNone => false
  | .vStr s => s != ""
  | .vInt n => n != 0

/-- Python `isinstance(x, str)`. -/
def PyVal.isTextual : PyVal → Bool
  | .vStr _ => true
  | _ => false

/-- `Account` (`app/models/account.py`).  The two identifier fields are kept
dynamically typed; the descriptive fields are carried through untouched by
every modelled function (the numeric `amount` field, likewise never read,
is omitted). -/
structure Account where
  account_number : PyVal
  bank_code : PyVal
  reference_id : String := ""
  currency : String := "KES"
  account_name : Option String := none
  phone_number : Option String := none
  transaction_type : Option String := none
deriving DecidableEq

instance : Inhabited Account := ⟨{ account_number := .vNone, bank_code := .vNone }⟩

/-- `Account.validate_format` (`app/models/account.py`): truthiness of both
identifier fields plus `isinstance(_, str)` checks. -/
def Account.validate_format (a : Account) : Bool :=
  if !a.account_number.truthy || !a.bank_code.truthy then false
  else if !a.account_number.isTextual then false
  else if !a.bank_code.isTextual then false
  else true

/-- `ValidationStatus` (`app/models/validation_result.py`). -/
inductive ValidationStatus
  | valid
  | invalid
  | error
  | pending
deriving DecidableEq

/-- `ValidationResult` (`app/models/validation_result.py`). -/
structure ValidationResult where
  account : Account
  status : ValidationStatus
  validated_name : Option String := none
  account_status : Option String := none
  error_code : Option String := none
  error_message : Option String := none
  bank_name : Option String := none
deriving DecidableEq

/-- Parsed JSON body of a PesaLink response, restricted to the keys the
code ever reads (`error`, `status`, `accountHolderName`, `bankName`,
`message`); `none` models an absent key. -/
structure RespBody where
  error : Option String := none
  status : Option String := none
  accountHolderName : Option String := none
  bankName : Option String := none
  message : Option String := none
deriving DecidableEq

/-- Outcome of one HTTP attempt inside `PesaLinkClient._make_request`:
a 2xx/3xx response with parsed body, a transport exception
(`ConnectionError` / `Timeout`), an HTTP error status raised by
`raise_for_status` (the body is `none` when the response content is
empty), or any other exception (e.g. a malformed response body), which no
`except` clause of `_make_request` catches. -/
inductive Attempt
  | success (body : RespBody)
  | connErr (msg : String)
  | timeoutErr (msg : String)
  | httpErr (statusCode : Nat) (body : Option RespBody) (msg : String)
  | otherExc (msg : String)
deriving DecidableEq

/-- Exception propagating out of `_make_request`. -/
inductive CallExc
  | connExc (msg : String)
  | timeExc (msg : String)
  | httpExc (statusCode : Nat) (msg : String)
  | otherRaised (msg : String)
deriving DecidableEq

/-- Python `str(e)` for a propagated exception. -/
def CallExc.text : CallExc → String
  | .connExc m => m
  | .timeExc m => m
  | .httpExc _ m => m
  | .otherRaised m => m

/-- Result of `_make_request`: a returned dict, a propagated exception, or
the implicit `None` Python returns when the retry loop body never runs
(`max_retries == 0`). -/
inductive ReqResult
  | ok (body : RespBody)
  | raised (e : CallExc)
  | noneReturn
deriving DecidableEq

/-- Client configuration (`app/config.py`: `REQUEST_TIMEOUT`, `MAX_RETRIES`,
`RETRY_DELAY`). -/
structure ClientCfg where
  timeout : Nat := 30
  maxRetries : Nat := 3
  retryDelay : Nat := 2
deriving DecidableEq

/-- Retry loop of `PesaLinkClient._make_request`
(`for attempt in range(self.max_retries)`), instrumented with the number
of attempts performed and the list of backoff sleeps, in order.  `ta i` is
the outcome of attempt `i` (0-based); `fuel` is the number of loop
iterations still available (the caller passes `maxRetries - attempt`), and
exhausting it models Python falling off the end of the function, returning
`None`.  A 4xx `HTTPError` returns the parsed error-response body — or
`{"error": str(e)}` when the response content is empty — instead of
raising; connection errors, timeouts and other HTTP statuses sleep
`retry_delay * 2 ** attempt` and retry while `attempt < max_retries - 1`,
re-raising on the last attempt; any other exception propagates at once. -/
def requestLoop (ta : Nat → Attempt) (retryDelay maxRetries : Nat) :
    Nat → Nat → ReqResult × Nat × List Nat
  | _, 0 => (.noneReturn, 0, [])
  | attempt, fuel + 1 =>
    match ta attempt with
    | .success body => (.ok body, 1, [])
    | .connErr m =>
      if attempt + 1 < maxRetries then
        let r := requestLoop ta retryDelay maxRetries (attempt + 1) fuel
        (r.1, r.2.1 + 1, retryDelay * 2 ^ attempt :: r.2.2)
      else (.raised (.connExc m), 1, [])
    | .timeoutErr m =>
      if attempt + 1 < maxRetries then
        let r := requestLoop ta retryDelay maxRetries (attempt + 1) fuel
        (r.1, r.2.1 + 1, retryDelay * 2 ^ attempt :: r.2.2)
      else (.raised (.timeExc m), 1, [])
    | .httpErr st body m =>
      if 400 ≤ st ∧ st < 500 then
        (.ok (body.getD { error := some m }), 1, [])
      else if attempt + 1 < maxRetries then
        let r := requestLoop ta retryDelay maxRetries (attempt + 1) fuel
        (r.1, r.2.1 + 1, retryDelay * 2 ^ attempt :: r.2.2)
      else (.raised (.httpExc st m), 1, [])
    | .otherExc m => (.raised (.otherRaised m), 1, [])

/-- `PesaLinkClient._make_request`: the retry loop started at attempt 0,
returning the request outcome together with the number of attempts
performed and the backoff delays slept. -/
def makeRequest (ta : Nat → Attempt) (cfg : ClientCfg) :
    ReqResult × Nat × List Nat :=
  requestLoop ta cfg.retryDelay cfg.maxRetries 0 cfg.maxRetries

/-- Message of the `TypeError` raised by `"error" in response` when
`_make_request` returned `None` (possible only with `max_retries == 0`). -/
def noneTypeMsg : String := "argument of type 'NoneType' is not iterable"

/-- `PesaLinkClient.validate_account`: issues the request and converts
every outcome into a `ValidationResult`.  A body with an `"error"` key
becomes ERROR with code `API_ERROR`; a body whose `"status"` is `"Valid"`
becomes VALID; any other body becomes INVALID with code `INVALID_ACCOUNT`;
the trailing `except Exception` converts any exception raised during the
call into an ERROR result with the literal error code `"EXCEPTION"`. -/
def validateAccount (ta : Nat → Attempt) (cfg : ClientCfg) (a : Account) :
    ValidationResult :=
  match (makeRequest ta cfg).1 with
  | .ok body =>
    match body.error with
    | some err =>
      { account := a, status := .error, error_code := some "API_ERROR",
        error_message := some err }
    | none =>
      if body.status = some "Valid" then
        { account := a, status := .valid,
          validated_name := body.accountHolderName,
          account_status := some "ACTIVE",
          bank_name := body.bankName }
      else
        { account := a, status := .invalid,
          error_code := some "INVALID_ACCOUNT",
          error_message := some (body.status.getD "Account validation failed") }
  | .raised e =>
    { account := a, status := .error, error_code := some "EXCEPTION",
      error_message := some e.text }
  | .noneReturn =>
    { account := a, status := .error, error_code := some "EXCEPTION",
      error_message := some noneTypeMsg }

/-- Leading-segment test on character lists: `takeMatches p l` iff `p` is
an initial segment of `l`. -/
def takeMatches : List Char → List Char → Bool
  | [], _ => true
  | _ :: _, [] => false
  | c :: p, d :: l => c == d && takeMatches p l

/-- Substring occurrence test on character lists. -/
def occursIn (p : List Char) : List Char → Bool
  | [] => p.isEmpty
  | c :: l => takeMatches p (c :: l) || occursIn p l

/-- Python `pat in s` on strings. -/
def strContains (s pat : String) : Bool :=
  occursIn pat.toList s.toList

/-- ASCII lowercasing of one character. -/
def lowerChar (c : Char) : Char :=
  if 'A' ≤ c ∧ c ≤ 'Z' then Char.ofNat (c.toNat + 32) else c

/-- Python `s.lower()` (the error messages involved are ASCII). -/
def strLower (s : String) : String := String.mk (s.toList.map lowerChar)

/-- `ErrorCode.map_pesalink_error` (`app/core/error_handler.py`): pure
classifier from HTTP status code and message to internal error code. -/
def mapPesalinkError (statusCode : Nat) (message : String) : String :=
  if statusCode == 400 then "INVALID_REQUEST"
  else if statusCode == 404 then
    if strContains (strLower message) "account" then "ACCOUNT_NOT_FOUND"
    else if strContains (strLower message) "bank" then "BANK_NOT_FOUND"
    else "INVALID_ACCOUNT"
  else if statusCode == 401 || statusCode == 403 then "AUTHENTICATION_ERROR"
  else if statusCode == 429 then "RATE_LIMIT_ERROR"
  else if 500 ≤ statusCode then "API_ERROR"
  else "UNKNOWN_ERROR"

/-- `AccountValidator._validate_format` (`app/core/validator.py`): the
pre-validation check actually used by the pipeline — Python truthiness of
the two identifier fields, nothing more. -/
def validateFormat (a : Account) : Bool :=
  if !a.account_number.truthy then false
  else if !a.bank_code.truthy then false
  else true

/-- `AccountValidator.validate_single`, instrumented with the list of
accounts for which a network call (`pesalink_client.validate_account`) was
issued.  The surrounding `try/except` (which would assign code
`UNKNOWN_ERROR`) is unreachable here because `_validate_format` and
`validate_account` are total. -/
def validateSingle (t : Account → Nat → Attempt) (ccfg : ClientCfg)
    (a : Account) : ValidationResult × List Account :=
  if !validateFormat a then
    ({ account := a, status := .invalid,
       error_code := some "INVALID_FORMAT",
       error_message := some "Account number format is invalid" }, [])
  else
    (validateAccount (t a) ccfg a, [a])

/-- Completion order of the thread pool in `AccountValidator.validate_batch`:
given the submitted accounts, the scheduler yields the indices of their
futures in the order `concurrent.futures.as_completed` returns them.  A
well-formed pool run yields every index exactly once. -/
def SchedOK (sched : List Account → List Nat) : Prop :=
  ∀ l, (sched l).Perm (List.range l.length)

/-- `AccountValidator.validate_batch`, instrumented with the network-call
log.  Sequential mode maps `validate_single` over the accounts in order;
parallel mode collects one result per submitted future in completion
order.  The `except` around `future.result()` (which would assign code
`UNKNOWN_ERROR`) is unreachable because `validate_single` is total. -/
def validateBatch (t : Account → Nat → Attempt) (ccfg : ClientCfg)
    (useParallel : Bool) (sched : List Account → List Nat)
    (accounts : List Account) : List ValidationResult × List Account :=
  if !useParallel then
    let prs := accounts.map (validateSingle t ccfg)
    (prs.map Prod.fst, (prs.map Prod.snd).flatten)
  else
    let prs := (sched accounts).map fun i =>
      validateSingle t ccfg (accounts.getD i default)
    (prs.map Prod.fst, (prs.map Prod.snd).flatten)

/-- `AccountValidator.pre_validate_batch`: one pass over the accounts,
splitting them into (valid-format, invalid-format) and preserving input
order in both lists. -/
def preValidateBatch : List Account → List Account × List Account
  | [] => ([], [])
  | a :: rest =>
    let p := preValidateBatch rest
    if validateFormat a then (a :: p.1, p.2) else (p.1, a :: p.2)

/-- `Batch` (`app/models/batch.py`): the fields that influence the modelled
control flow.  The timestamps, `status` string and `processed` flag never
affect any result value and are omitted; `total_accounts` is the derived
`len(accounts)`. -/
structure Batch where
  accounts : List Account
  batch_id : String := ""
  metadata : List (String × String) := []
deriving DecidableEq

/-- Chunking recursion: each step takes one chunk of `k + 1` elements off
the front.  `fuel` bounds the number of chunks; the list length always
suffices (each step consumes at least one element), so the fuel-exhaustion
branch is unreachable from `chunksPos`. -/
def chunksPosGo {α : Type} (k : Nat) : Nat → List α → List (List α)
  | _, [] => []
  | 0, _ :: _ => []
  | fuel + 1, a :: l => (a :: l.take k) :: chunksPosGo k fuel (l.drop k)

/-- Contiguous chunks of size `k + 1` as produced by
`for i in range(0, len(accounts), max_size)` with slicing, for a positive
`max_size` (`k = max_size - 1`). -/
def chunksPos {α : Type} (k : Nat) (l : List α) : List (List α) :=
  chunksPosGo k l.length l

/-- Sub-batch construction loop of `Batch.split`: the `i`-th created
sub-batch receives identifier `gen i` (modelling `uuid.uuid4()`) and a
copy of the parent's metadata. -/
def mkSubBatches (gen : Nat → String) (meta : List (String × String)) :
    Nat → List (List Account) → List Batch
  | _, [] => []
  | i, c :: cs =>
    { accounts := c, batch_id := gen i, metadata := meta } ::
      mkSubBatches gen meta (i + 1) cs

/-- `Batch.split` (`app/models/batch.py`).  `maxSize` is a Python `int` and
may be zero or negative: `none` models the `ValueError` raised by
`range(0, n, 0)` when `max_size == 0` and the batch is non-empty, and a
negative `max_size` makes `range(0, n, max_size)` empty, so no sub-batch
is created at all. -/
def Batch.split (b : Batch) (maxSize : Int) (gen : Nat → String) :
    Option (List Batch) :=
  if (b.accounts.length : Int) ≤ maxSize then some [b]
  else if maxSize = 0 then none
  else if maxSize < 0 then some []
  else some (mkSubBatches gen b.metadata 0
    (chunksPos (maxSize.toNat - 1) b.accounts))

/-- Every chunk produced by `chunksPosGo k` has at most `k + 1`
elements. -/
theorem chunksPosGo_mem_length {α : Type} (k : Nat) :
    ∀ fuel (l : List α), ∀ c ∈ chunksPosGo k fuel l, c.length ≤ k + 1 := by
  intro fuel
  induction fuel with
  | zero =>
    intro l c hc
    cases l <;> simp [chunksPosGo] at hc
  | succ f ih =>
    intro l c hc
    cases l with
    | nil => simp [chunksPosGo] at hc
    | cons a l =>
      rw [chunksPosGo] at hc
      rcases List.mem_cons.mp hc with h | h
      · subst h
        simp only [List.length_cons]
        have := List.length_take_le k l
        omega
      · exact ih (l.drop k) c h

/-- Every chunk produced by `chunksPos k` has at most `k + 1` elements. -/
theorem chunksPos_mem_length {α : Type} (k : Nat) (l : List α) :
    ∀ c ∈ chunksPos k l, c.length ≤ k + 1 :=
  chunksPosGo_mem_length k l.length l

/-- Processor configuration (`app/config.py`: `MAX_BATCH_SIZE`,
`WORKER_THREADS`, `ENABLE_PARALLEL_PROCESSING`, folded with the
constructor arguments of `BatchProcessor`). -/
structure ProcCfg where
  maxBatchSize : Nat := 1000
  workerThreads : Nat := 10
  enableParallel : Bool := true
deriving DecidableEq

/-- Sequencing of the sub-batch results: the `for` loop over sub-batches
propagates the first exception and otherwise collects every result. -/
def seqOpts {α : Type} : List (Option α) → Option (List α)
  | [] => some []
  | o :: os => o.bind fun a => (seqOpts os).map fun rest => a :: rest

/-- Every sub-batch built by `mkSubBatches` carries one of the given
chunks as its account list. -/
theorem mkSubBatches_mem_accounts (gen : Nat → String)
    (meta : List (String × String)) (i : Nat) (cs : List (List Account)) :
    ∀ s ∈ mkSubBatches gen meta i cs, s.accounts ∈ cs := by
  induction cs generalizing i with
  | nil => intro s hs; simp [mkSubBatches] at hs
  | cons c cs ih =>
    intro s hs
    rw [mkSubBatches] at hs
    rcases List.mem_cons.mp hs with h | h
    · subst h; exact List.mem_cons_self _ _
    · exact List.mem_cons_of_mem _ (ih (i + 1) s h)

/-- When a batch strictly larger than `m` is split with `max_size = m`,
every produced sub-batch is strictly smaller than the original, which is
why the recursion of `process_batch` always bottoms out within its
fuel. -/
theorem split_mem_length {b : Batch} {m : Nat} {gen : Nat → String}
    {subs : List Batch} (hgt : m < b.accounts.length)
    (hs : Batch.split b (m : Int) gen = some subs) :
    ∀ s ∈ subs, s.accounts.length < b.accounts.length := by
  intro s hmem
  unfold Batch.split at hs
  rw [if_neg (by exact_mod_cast Nat.not_le.mpr hgt)] at hs
  by_cases hm : m = 0
  · subst hm; simp at hs
  · rw [if_neg (by exact_mod_cast hm),
      if_neg (Int.natCast_nonneg m).not_lt] at hs
    injection hs with h
    have hsub := mkSubBatches_mem_accounts gen b.metadata 0 _ s
      (by rw [h]; exact hmem)
    have htn : ((m : Int)).toNat = m := by simp
    rw [htn] at hsub
    have hlen := chunksPos_mem_length (m - 1) b.accounts s.accounts hsub
    omega

/-- INVALID result the processor assigns to an account rejected by
pre-validation (`process_batch`, format-error branch). -/
def invalidFormatResult (a : Account) : ValidationResult :=
  { account := a, status := .invalid,
    error_code := some "INVALID_FORMAT",
    error_message := some "Account format is invalid" }

/-- Recursion of `BatchProcessor.process_batch`, instrumented with the
network-call log.  An oversized batch is split and each sub-batch is
processed recursively, the result lists concatenated in sub-batch order;
otherwise the batch is pre-validated, each invalid-format account yields
an immediate INVALID result with code `INVALID_FORMAT` and message
"Account format is invalid", and the valid-format accounts go through
`validate_batch`.  `none` models a propagated exception (only
`Batch.split` with `max_batch_size = 0` raises).  `fuel` bounds the
recursion depth; since every sub-batch is strictly smaller than its
parent, `accounts.length + 1` always suffices (`processBatchGo_spec`
shows the fuel-exhaustion branch is unreachable from `processBatch`
whenever `max_batch_size ≥ 1`, and with `max_batch_size = 0` an
oversized batch already fails in `split` before recursing). -/
def processBatchGo (cfg : ProcCfg) (ccfg : ClientCfg)
    (t : Account → Nat → Attempt) (sched : List Account → List Nat)
    (gen : Nat → String) :
    Nat → Batch → Option (List ValidationResult × List Account)
  | 0, _ => none
  | fuel + 1, b =>
    if cfg.maxBatchSize < b.accounts.length then
      match Batch.split b (cfg.maxBatchSize : Int) gen with
      | none => none
      | some subs =>
        match seqOpts (subs.map fun s =>
            processBatchGo cfg ccfg t sched gen fuel s) with
        | none => none
        | some pairs =>
          some ((pairs.map Prod.fst).flatten, (pairs.map Prod.snd).flatten)
    else
      some ((preValidateBatch b.accounts).2.map invalidFormatResult ++
          (validateBatch t ccfg cfg.enableParallel sched
            (preValidateBatch b.accounts).1).1,
        (validateBatch t ccfg cfg.enableParallel sched
          (preValidateBatch b.accounts).1).2)

/-- `BatchProcessor.process_batch`: the recursion started with enough
fuel. -/
def processBatch (cfg : ProcCfg) (ccfg : ClientCfg)
    (t : Account → Nat → Attempt) (sched : List Account → List Nat)
    (gen : Nat → String) (b : Batch) :
    Option (List ValidationResult × List Account) :=
  processBatchGo cfg ccfg t sched gen (b.accounts.length + 1) b

/-- `BatchProcessor.process`: an empty input short-circuits to `[]`;
otherwise the accounts are wrapped in a fresh `Batch` and handed to
`process_batch`, whose `results` field is returned.  The returned pair is
(result list, network-call log). -/
def process (cfg : ProcCfg) (ccfg : ClientCfg)
    (t : Account → Nat → Attempt) (sched : List Account → List Nat)
    (gen : Nat → String) (accounts : List Account) :
    Option (List ValidationResult × List Account) :=
  if accounts.isEmpty then some ([], [])
  else processBatch cfg ccfg t sched gen { accounts := accounts }

/-- Python truthiness of an optional error-code string (`r.error_code` in
the `get_statistics` filter): `None` and `""` are falsy. -/
def codeTruthy : Option String → Bool
  | none => false
  | some s => s != ""

/-- One `error_codes[code] = error_codes.get(code, 0) + 1` step on an
insertion-ordered association list. -/
def bumpCode (c : String) : List (String × Nat) → List (String × Nat)
  | [] => [(c, 1)]
  | (d, n) :: rest =>
    if d = c then (d, n + 1) :: rest else (d, n) :: bumpCode c rest

/-- One iteration of the `error_codes` loop of
`BatchProcessor.get_statistics`: an INVALID or ERROR result with a truthy
error code bumps that code's count. -/
def statStep (acc : List (String × Nat)) (r : ValidationResult) :
    List (String × Nat) :=
  if (r.status == ValidationStatus.invalid
        || r.status == ValidationStatus.error)
      && codeTruthy r.error_code
  then bumpCode (r.error_code.getD "") acc else acc

/-- The `error_codes` dict built by `BatchProcessor.get_statistics`: counts
of the truthy error codes of INVALID and ERROR results, keyed in
insertion order. -/
def groupErrorCodes (results : List ValidationResult) : List (String × Nat) :=
  results.foldl statStep []

/-- Lookup with default 0 in the `error_codes` table
(`dict.get(code, 0)`). -/
def codeCount (tbl : List (String × Nat)) (c : String) : Nat :=
  match tbl with
  | [] => 0
  | p :: rest => if p.1 = c then p.2 else codeCount rest c

/-- Statistics record returned by `BatchProcessor.get_statistics`.
Percentages are exact rationals standing for the source's float
division. -/
structure Stats where
  total : Nat
  valid : Nat
  invalid : Nat
  error : Nat
  valid_percent : ℚ
  invalid_percent : ℚ
  error_percent : ℚ
  error_codes : List (String × Nat)
deriving DecidableEq

/-- `BatchProcessor.get_statistics`. -/
def getStatistics (results : List ValidationResult) : Stats :=
  let total := results.length
  let validCount := results.countP (fun r => r.status == ValidationStatus.valid)
  let invalidCount := results.countP (fun r => r.status == ValidationStatus.invalid)
  let errorCount := results.countP (fun r => r.status == ValidationStatus.error)
  { total := total
    valid := validCount
    invalid := invalidCount
    error := errorCount
    valid_percent := if 0 < total then (validCount : ℚ) / total * 100 else 0
    invalid_percent := if 0 < total then (invalidCount : ℚ) / total * 100 else 0
    error_percent := if 0 < total then (errorCount : ℚ) / total * 100 else 0
    error_codes := groupErrorCodes results }

/-- Ordering property claimed of a result list: once an outcome for a
well-formed account appears, no malformed-account outcome may follow
("all malformed-record INVALID outcomes before all coordinator-produced
outcomes"). -/
def malformedFirstB : List ValidationResult → Bool
  | [] => true
  | r :: rest =>
    (!validateFormat r.account
        || rest.all fun r2 => validateFormat r2.account)
      && malformedFirstB rest

/-- Retryable attempt outcome per the code's retry policy: connection
failures, timeouts, and HTTP error statuses at or above 500. -/
def Attempt.retryable : Attempt → Bool
  | .connErr _ => true
  | .timeoutErr _ => true
  | .httpErr st _ _ => decide (500 ≤ st)
  | _ => false

/-- The exception `_make_request` re-raises when an attempt of the given
kind exhausts the retry budget (the `success` case never raises; its value
here is irrelevant). -/
def Attempt.raiseOf : Attempt → CallExc
  | .connErr m => .connExc m
  | .timeoutErr m => .timeExc m
  | .httpErr st _ m => .httpExc st m
  | .success _ => .otherRaised ""
  | .otherExc m => .otherRaised m

/-- Default client configuration (`MAX_RETRIES = 3`, `RETRY_DELAY = 2`). -/
def cfgDefault : ClientCfg := {}

/-- A well-formed account used in concrete scenarios. -/
def acctJohn : Account :=
  { account_number := .vStr "1234567890", bank_code := .vStr "01" }

/-- Transport whose every attempt fails with a connection error. -/
def taConn : Nat → Attempt := fun _ => .connErr "connection refused"

/-- The 404 body of the "account not found" scenario. -/
def body404 : RespBody := { message := some "account not found" }

/-- Transport answering HTTP 404 with the "account not found" body. -/
def ta404 : Nat → Attempt :=
  fun _ => .httpErr 404 (some body404) "404 Client Error: Not Found"

/-- Transport whose attempts raise a JSON-decoding exception (malformed
response body). -/
def taBadJson : Nat → Attempt :=
  fun _ => .otherExc "Expecting value: line 1 column 1 (char 0)"

/-- Identifier generator used in concrete split scenarios. -/
def genIdx : Nat → String := fun i => "sub-" ++ toString i

/-- Three-account batch used in concrete split scenarios. -/
def batchThree : Batch :=
  { accounts := [acctJohn,
      { account_number := .vStr "2222222222", bank_code := .vStr "02" },
      { account_number := .vStr "3333333333", bank_code := .vStr "03" }],
    batch_id := "parent", metadata := [("source", "test")] }

/-- One-account batch used in degenerate split scenarios. -/
def batchOne : Batch := { accounts := [acctJohn] }

/-- Body of a successful `"Valid"` response. -/
def validBody : RespBody :=
  { status := some "Valid", accountHolderName := some "John Doe",
    bankName := some "PesaBank" }

/-- Transport that always succeeds with a `"Valid"` response. -/
def tValid : Account → Nat → Attempt := fun _ _ => .success validBody

/-- Identity completion order (futures complete in submission order). -/
def schedId : List Account → List Nat := fun l => List.range l.length

/-- Reversed completion order (futures complete last-first). -/
def schedRev : List Account → List Nat :=
  fun l => (List.range l.length).reverse

/-- Sequential configuration with the default maximum batch size. -/
def procCfgSeq : ProcCfg := { enableParallel := false }

/-- Sequential configuration with `max_batch_size = 2`. -/
def procCfgSeq2 : ProcCfg := { maxBatchSize := 2, enableParallel := false }

/-- Parallel configuration with `max_batch_size = 2`. -/
def procCfgPar2 : ProcCfg := { maxBatchSize := 2, enableParallel := true }

/-- Malformed account: empty account number. -/
def acctBadA : Account :=
  { account_number := .vStr "", bank_code := .vStr "01",
    reference_id := "bad-a" }

/-- Malformed account: missing bank code. -/
def acctBadB : Account :=
  { account_number := .vStr "7777777777", bank_code := .vNone,
    reference_id := "bad-b" }

/-- Well-formed account between the two malformed ones. -/
def acctGoodMid : Account :=
  { account_number := .vStr "5555555555", bank_code := .vStr "02",
    reference_id := "good-mid" }

/-- Account whose account number is the truthy non-textual value `123`. -/
def acctIntNumber : Account :=
  { account_number := .vInt 123, bank_code := .vStr "01" }

/-- On an all-retryable transport the retry loop performs every remaining
attempt, sleeps `retry_delay * 2 ^ i` after each attempt except the last,
and re-raises the last attempt's exception. -/
theorem requestLoop_all_retryable (ta : Nat → Attempt) (d mr : Nat) :
    ∀ fuel attempt, attempt + fuel = mr → 1 ≤ fuel →
      (∀ i, attempt ≤ i → i < mr → (ta i).retryable = true) →
      requestLoop ta d mr attempt fuel =
        (.raised ((ta (mr - 1)).raiseOf), fuel,
          (List.range' attempt (fuel - 1)).map fun i => d * 2 ^ i) := by
  intro fuel
  induction fuel with
  | zero => intro attempt _ hpos _; omega
  | succ f ih =>
    intro attempt hsum hpos hret
    have hlt : attempt < mr := by omega
    have hta := hret attempt (Nat.le_refl attempt) hlt
    cases hcase : ta attempt with
    | success body => rw [hcase] at hta; simp [Attempt.retryable] at hta
    | otherExc m => rw [hcase] at hta; simp [Attempt.retryable] at hta
    | connErr m =>
      rw [requestLoop, hcase]
      dsimp only
      cases f with
      | zero =>
        have hmr : attempt = mr - 1 := by omega
        rw [if_neg (by omega)]
        simp [← hmr, hcase, Attempt.raiseOf]
      | succ f' =>
        rw [if_pos (by omega)]
        rw [ih (attempt + 1) (by omega) (by omega)
          (fun i h1 h2 => hret i (by omega) h2)]
        have hr : List.range' attempt (f' + 1) =
            attempt :: List.range' (attempt + 1) f' := List.range'_succ ..
        simp [hr]
    | timeoutErr m =>
      rw [requestLoop, hcase]
      dsimp only
      cases f with
      | zero =>
        have hmr : attempt = mr - 1 := by omega
        rw [if_neg (by omega)]
        simp [← hmr, hcase, Attempt.raiseOf]
      | succ f' =>
        rw [if_pos (by omega)]
        rw [ih (attempt + 1) (by omega) (by omega)
          (fun i h1 h2 => hret i (by omega) h2)]
        have hr : List.range' attempt (f' + 1) =
            attempt :: List.range' (attempt + 1) f' := List.range'_succ ..
        simp [hr]
    | httpErr st body m =>
      rw [hcase] at hta
      simp only [Attempt.retryable, decide_eq_true_eq] at hta
      rw [requestLoop, hcase]
      dsimp only
      rw [if_neg (by omega)]
      cases f with
      | zero =>
        have hmr : attempt = mr - 1 := by omega
        rw [if_neg (by omega)]
        simp [← hmr, hcase, Attempt.raiseOf]
      | succ f' =>
        rw [if_pos (by omega)]
        rw [ih (attempt + 1) (by omega) (by omega)
          (fun i h1 h2 => hret i (by omega) h2)]
        have hr : List.range' attempt (f' + 1) =
            attempt :: List.range' (attempt + 1) f' := List.range'_succ ..
        simp [hr]

/-- `_make_request` on an all-retryable transport: every attempt is used,
the delays are the exponential-backoff sequence, and the last attempt's
exception propagates. -/
theorem makeRequest_all_retryable (ta : Nat → Attempt) (cfg : ClientCfg)
    (hmr : 1 ≤ cfg.maxRetries)
    (hret : ∀ i, i < cfg.maxRetries → (ta i).retryable = true) :
    makeRequest ta cfg =
      (.raised ((ta (cfg.maxRetries - 1)).raiseOf), cfg.maxRetries,
        (List.range (cfg.maxRetries - 1)).map fun i => cfg.retryDelay * 2 ^ i) := by
  unfold makeRequest
  rw [requestLoop_all_retryable ta cfg.retryDelay cfg.maxRetries
    cfg.maxRetries 0 (by omega) hmr (fun i _ h2 => hret i h2)]
  rw [List.range_eq_range']

/-- A 4xx failure on the first attempt returns at once: the error-response
body (or `{"error": str(e)}` when the response content is empty) is
returned after exactly one attempt and no backoff sleep. -/
theorem requestLoop_first_4xx (ta : Nat → Attempt) (d mr st : Nat)
    (body : Option RespBody) (m : String) (h0 : ta 0 = .httpErr st body m)
    (hst : 400 ≤ st) (hlt : st < 500) (hmr : 1 ≤ mr) :
    requestLoop ta d mr 0 mr = (.ok (body.getD { error := some m }), 1, []) := by
  obtain ⟨f, hf⟩ := Nat.exists_eq_add_of_le hmr
  rw [Nat.add_comm] at hf
  subst hf
  rw [requestLoop, h0]
  dsimp only
  rw [if_pos ⟨hst, hlt⟩]

/-- Every branch of `validate_account` returns a result for the requested
account. -/
theorem validateAccount_account (ta : Nat → Attempt) (cfg : ClientCfg)
    (a : Account) : (validateAccount ta cfg a).account = a := by
  unfold validateAccount
  cases hm : (makeRequest ta cfg).1 with
  | ok body =>
    dsimp only
    cases hb : body.error with
    | none => dsimp only; split <;> rfl
    | some err => rfl
  | raised e => rfl
  | noneReturn => rfl

/-- C3 (corrected): when every attempt fails with a retryable condition
(connection failure, timeout, or HTTP status ≥ 500) and at least one
attempt is permitted, exactly `max_retries` attempts occur and a backoff
delay of `retry_delay * 2 ^ i` follows the `i`-th failed attempt for every
attempt except the last; the final outcome for the account is an ERROR
result, but it carries the literal error code `"EXCEPTION"` from the
client's catch-all — not the classified `CONNECTION_ERROR` /
`TIMEOUT_ERROR` / `API_ERROR` — with the re-raised exception's text as its
message. -/
theorem retry_exhaustion_behaviour (ta : Nat → Attempt) (cfg : ClientCfg)
    (a : Account) (hmr : 1 ≤ cfg.maxRetries)
    (hret : ∀ i, i < cfg.maxRetries → (ta i).retryable = true) :
    (makeRequest ta cfg).2.1 = cfg.maxRetries ∧
    (makeRequest ta cfg).2.2 =
      (List.range (cfg.maxRetries - 1)).map (fun i => cfg.retryDelay * 2 ^ i) ∧
    (validateAccount ta cfg a).status = .error ∧
    (validateAccount ta cfg a).error_code = some "EXCEPTION" ∧
    (validateAccount ta cfg a).error_message =
      some ((ta (cfg.maxRetries - 1)).raiseOf).text := by
  have h := makeRequest_all_retryable ta cfg hmr hret
  refine ⟨by rw [h], by rw [h], ?_, ?_, ?_⟩ <;> simp [validateAccount, h]

/-- C3 counterexample: with the default configuration (3 retries) and a
transport failing with a connection error on every attempt, the final
outcome's error code is the literal `"EXCEPTION"`, not the classified
`CONNECTION_ERROR` the claim requires. -/
theorem retry_exhaustion_claim_cex :
    (validateAccount taConn cfgDefault acctJohn).status = .error ∧
    (validateAccount taConn cfgDefault acctJohn).error_code = some "EXCEPTION" ∧
    (validateAccount taConn cfgDefault acctJohn).error_code ≠
      some "CONNECTION_ERROR" := by
  decide

/-- C3 witness: the amended retry-exhaustion theorem instantiated at the
default configuration and the everywhere-failing connection transport. -/
theorem retry_exhaustion_behaviour_witness :
    1 ≤ cfgDefault.maxRetries ∧
    ((makeRequest taConn cfgDefault).2.1 = cfgDefault.maxRetries ∧
      (makeRequest taConn cfgDefault).2.2 =
        (List.range (cfgDefault.maxRetries - 1)).map
          (fun i => cfgDefault.retryDelay * 2 ^ i) ∧
      (validateAccount taConn cfgDefault acctJohn).status = .error ∧
      (validateAccount taConn cfgDefault acctJohn).error_code =
        some "EXCEPTION" ∧
      (validateAccount taConn cfgDefault acctJohn).error_message =
        some ((taConn (cfgDefault.maxRetries - 1)).raiseOf).text) :=
  ⟨by decide, retry_exhaustion_behaviour taConn cfgDefault acctJohn
    (by decide) (fun i _ => rfl)⟩

/-- C5 (confirmed): a remote call whose first attempt fails with an HTTP
status in [400, 499] makes exactly one attempt and sleeps no backoff
delay, whatever `max_retries` is configured (provided the loop may run at
all). -/
theorem terminal_4xx_single_attempt (ta : Nat → Attempt) (cfg : ClientCfg)
    (st : Nat) (body : Option RespBody) (m : String)
    (h0 : ta 0 = .httpErr st body m) (hst : 400 ≤ st) (hlt : st < 500)
    (hmr : 1 ≤ cfg.maxRetries) :
    (makeRequest ta cfg).2.1 = 1 ∧ (makeRequest ta cfg).2.2 = [] := by
  unfold makeRequest
  rw [requestLoop_first_4xx ta cfg.retryDelay cfg.maxRetries st body m h0
    hst hlt hmr]
  exact ⟨rfl, rfl⟩

/-- C5 witness: instantiated at HTTP 404 with the default configuration
(`max_retries = 3`). -/
theorem terminal_4xx_single_attempt_witness :
    400 ≤ 404 ∧ 404 < 500 ∧ 1 ≤ cfgDefault.maxRetries ∧
    ((makeRequest ta404 cfgDefault).2.1 = 1 ∧
      (makeRequest ta404 cfgDefault).2.2 = []) :=
  ⟨by decide, by decide, by decide,
    terminal_4xx_single_attempt ta404 cfgDefault 404 (some body404)
      "404 Client Error: Not Found" rfl (by decide) (by decide) (by decide)⟩

/-- C2 counterexample: the service answers HTTP 404 with body
`{"message": "account not found"}`; the client passes the 404 body through
and produces an INVALID outcome with code `INVALID_ACCOUNT`, never
`ACCOUNT_NOT_FOUND`. -/
theorem http404_claim_cex :
    (validateAccount ta404 cfgDefault acctJohn).status = .invalid ∧
    (validateAccount ta404 cfgDefault acctJohn).error_code =
      some "INVALID_ACCOUNT" ∧
    (validateAccount ta404 cfgDefault acctJohn).error_code ≠
      some "ACCOUNT_NOT_FOUND" := by
  decide

/-- C2 (corrected): a 404 response is passed through as its body: the
outcome is INVALID with code `INVALID_ACCOUNT` when the body has no
`"error"` key and no `"Valid"` status, and ERROR with code `API_ERROR`
when the body has an `"error"` key; the classifier
`ErrorCode.map_pesalink_error` does map a 404 whose message mentions
"account" to `ACCOUNT_NOT_FOUND`, but `validate_account` never invokes
it. -/
theorem http404_passthrough (ta : Nat → Attempt) (cfg : ClientCfg)
    (a : Account) (body : RespBody) (m msg : String)
    (h0 : ta 0 = .httpErr 404 (some body) m) (hmr : 1 ≤ cfg.maxRetries)
    (hstat : body.status ≠ some "Valid")
    (hmsg : strContains (strLower msg) "account" = true) :
    (body.error = none →
      (validateAccount ta cfg a).status = .invalid ∧
      (validateAccount ta cfg a).error_code = some "INVALID_ACCOUNT") ∧
    (∀ e, body.error = some e →
      (validateAccount ta cfg a).status = .error ∧
      (validateAccount ta cfg a).error_code = some "API_ERROR") ∧
    mapPesalinkError 404 msg = "ACCOUNT_NOT_FOUND" := by
  have h := requestLoop_first_4xx ta cfg.retryDelay cfg.maxRetries 404
    (some body) m h0 (by omega) (by omega) hmr
  have hv : (makeRequest ta cfg).1 = .ok body := by
    unfold makeRequest; rw [h]; rfl
  refine ⟨?_, ?_, ?_⟩
  · intro herr
    constructor <;> simp [validateAccount, hv, herr, hstat]
  · intro e herr
    constructor <;> simp [validateAccount, hv, herr]
  · simp [mapPesalinkError, hmsg]

/-- C2 witness: the passthrough theorem instantiated at the
"account not found" scenario body. -/
theorem http404_passthrough_witness :
    body404.status ≠ some "Valid" ∧
    ((body404.error = none →
      (validateAccount ta404 cfgDefault acctJohn).status = .invalid ∧
      (validateAccount ta404 cfgDefault acctJohn).error_code =
        some "INVALID_ACCOUNT") ∧
    (∀ e, body404.error = some e →
      (validateAccount ta404 cfgDefault acctJohn).status = .error ∧
      (validateAccount ta404 cfgDefault acctJohn).error_code =
        some "API_ERROR") ∧
    mapPesalinkError 404 "account not found" = "ACCOUNT_NOT_FOUND") :=
  ⟨by decide, http404_passthrough ta404 cfgDefault acctJohn body404
    "404 Client Error: Not Found" "account not found" rfl (by decide)
    (by decide) (by decide)⟩

/-- C6 (corrected): the validation client's `validate_account` never
raises — for every transport behaviour it returns a `ValidationResult`
for the requested account — and any unexpected exception propagating from
the call is caught by its `except Exception` clause and converted to an
ERROR outcome whose error code is the literal `"EXCEPTION"`, not
`UNKNOWN_ERROR` (the validator-level catch-all that would assign
`UNKNOWN_ERROR` is unreachable because the client never raises). -/
theorem client_never_raises (ta : Nat → Attempt) (cfg : ClientCfg)
    (a : Account) :
    (validateAccount ta cfg a).account = a ∧
    (∀ e, (makeRequest ta cfg).1 = .raised e →
      validateAccount ta cfg a =
        { account := a, status := .error, error_code := some "EXCEPTION",
          error_message := some e.text }) := by
  refine ⟨validateAccount_account ta cfg a, fun e he => ?_⟩
  unfold validateAccount
  rw [he]

/-- C6 counterexample: a malformed response body raises a JSON-decoding
error; the outcome's code is the literal `"EXCEPTION"`, not the
`UNKNOWN_ERROR` the claim requires. -/
theorem client_exception_code_cex :
    (validateAccount taBadJson cfgDefault acctJohn).status = .error ∧
    (validateAccount taBadJson cfgDefault acctJohn).error_code =
      some "EXCEPTION" ∧
    (validateAccount taBadJson cfgDefault acctJohn).error_code ≠
      some "UNKNOWN_ERROR" := by
  decide

/-- C6 witness: the never-raises theorem instantiated at the
malformed-body transport. -/
theorem client_never_raises_witness :
    (makeRequest taBadJson cfgDefault).1 =
      .raised (.otherRaised "Expecting value: line 1 column 1 (char 0)") ∧
    validateAccount taBadJson cfgDefault acctJohn =
      { account := acctJohn, status := .error, error_code := some "EXCEPTION",
        error_message := some "Expecting value: line 1 column 1 (char 0)" } :=
  ⟨by decide, (client_never_raises taBadJson cfgDefault acctJohn).2
    (.otherRaised "Expecting value: line 1 column 1 (char 0)") (by decide)⟩

/-- With enough fuel, concatenating the chunks restores the original
list. -/
theorem chunksPosGo_flatten {α : Type} (k : Nat) :
    ∀ fuel (l : List α), l.length ≤ fuel →
      (chunksPosGo k fuel l).flatten = l := by
  intro fuel
  induction fuel with
  | zero =>
    intro l h
    cases l with
    | nil => rfl
    | cons a l => simp at h
  | succ f ih =>
    intro l h
    cases l with
    | nil => rfl
    | cons a l =>
      simp only [List.length_cons] at h
      rw [chunksPosGo]
      simp only [List.flatten_cons]
      rw [ih (l.drop k) (by simp only [List.length_drop]; omega)]
      simp [List.take_append_drop]

/-- Concatenating the chunks restores the original list. -/
theorem chunksPos_flatten {α : Type} (k : Nat) (l : List α) :
    (chunksPos k l).flatten = l :=
  chunksPosGo_flatten k l.length l (Nat.le_refl _)

/-- The account lists of the built sub-batches are exactly the chunks. -/
theorem mkSubBatches_map_accounts (gen : Nat → String)
    (meta : List (String × String)) (i : Nat) (cs : List (List Account)) :
    (mkSubBatches gen meta i cs).map Batch.accounts = cs := by
  induction cs generalizing i with
  | nil => rfl
  | cons c cs ih => simp only [mkSubBatches, List.map_cons, ih]

/-- There are as many sub-batches as chunks. -/
theorem mkSubBatches_length (gen : Nat → String)
    (meta : List (String × String)) (i : Nat) (cs : List (List Account)) :
    (mkSubBatches gen meta i cs).length = cs.length := by
  induction cs generalizing i with
  | nil => rfl
  | cons c cs ih => simp only [mkSubBatches, List.length_cons, ih]

/-- Every built sub-batch carries the parent's metadata. -/
theorem mkSubBatches_metadata (gen : Nat → String)
    (meta : List (String × String)) (i : Nat) (cs : List (List Account)) :
    ∀ s ∈ mkSubBatches gen meta i cs, s.metadata = meta := by
  induction cs generalizing i with
  | nil => intro s hs; simp [mkSubBatches] at hs
  | cons c cs ih =>
    intro s hs
    rw [mkSubBatches] at hs
    rcases List.mem_cons.mp hs with h | h
    · subst h; rfl
    · exact ih (i + 1) s h

/-- The identifiers of the built sub-batches are `gen i, gen (i+1), …`. -/
theorem mkSubBatches_map_id (gen : Nat → String)
    (meta : List (String × String)) (i : Nat) (cs : List (List Account)) :
    (mkSubBatches gen meta i cs).map Batch.batch_id =
      (List.range' i cs.length).map gen := by
  induction cs generalizing i with
  | nil => rfl
  | cons c cs ih =>
    simp only [mkSubBatches, List.map_cons, List.length_cons,
      List.range'_succ, ih]

/-- `split` on a batch not larger than `max_size` returns the batch
itself. -/
theorem split_small {b : Batch} {maxSize : Int} (gen : Nat → String)
    (h : (b.accounts.length : Int) ≤ maxSize) :
    Batch.split b maxSize gen = some [b] := by
  unfold Batch.split; rw [if_pos h]

/-- `split` on an oversized batch with positive `max_size` produces the
sub-batches built from the chunks. -/
theorem split_big {b : Batch} {maxSize : Int} (gen : Nat → String)
    (h1 : 1 ≤ maxSize) (h2 : maxSize < (b.accounts.length : Int)) :
    Batch.split b maxSize gen =
      some (mkSubBatches gen b.metadata 0
        (chunksPos (maxSize.toNat - 1) b.accounts)) := by
  unfold Batch.split
  rw [if_neg (by omega), if_neg (by omega), if_neg (by omega)]

/-- C7 (confirmed): for `max_size ≥ 1`, splitting a batch with at most
`max_size` accounts returns `[batch]` unchanged; splitting a larger batch
returns contiguous chunks in input order whose concatenation is the
original account sequence, each of at most `max_size` accounts, each
carrying a copy of the parent's metadata and the freshly generated
identifier `gen i` (pairwise distinct whenever the generator is
injective); and `split` is a no-op on every produced chunk, so it is
idempotent. -/
theorem batch_split_spec (b : Batch) (maxSize : Int) (gen : Nat → String)
    (hmax : 1 ≤ maxSize) :
    ((b.accounts.length : Int) ≤ maxSize →
      Batch.split b maxSize gen = some [b]) ∧
    (maxSize < (b.accounts.length : Int) →
      ∃ subs, Batch.split b maxSize gen = some subs ∧
        (subs.map Batch.accounts).flatten = b.accounts ∧
        (∀ s ∈ subs, (s.accounts.length : Int) ≤ maxSize) ∧
        (∀ s ∈ subs, s.metadata = b.metadata) ∧
        subs.map Batch.batch_id = (List.range subs.length).map gen ∧
        (Function.Injective gen → (subs.map Batch.batch_id).Nodup) ∧
        (∀ gen' : Nat → String, ∀ s ∈ subs,
          Batch.split s maxSize gen' = some [s])) := by
  constructor
  · exact fun h => split_small gen h
  · intro h2
    have hnn : (maxSize.toNat : Int) = maxSize :=
      Int.toNat_of_nonneg (by omega)
    have hbound : ∀ s ∈ mkSubBatches gen b.metadata 0
        (chunksPos (maxSize.toNat - 1) b.accounts),
        (s.accounts.length : Int) ≤ maxSize := by
      intro s hs
      have hmem := mkSubBatches_mem_accounts gen b.metadata 0 _ s hs
      have hlen := chunksPos_mem_length (maxSize.toNat - 1) b.accounts
        s.accounts hmem
      omega
    refine ⟨_, split_big gen hmax h2, ?_, hbound, ?_, ?_, ?_, ?_⟩
    · rw [mkSubBatches_map_accounts, chunksPos_flatten]
    · exact mkSubBatches_metadata gen b.metadata 0 _
    · rw [mkSubBatches_map_id, mkSubBatches_length, List.range_eq_range']
    · intro hinj
      rw [mkSubBatches_map_id]
      exact (List.nodup_range' _ _).map hinj
    · intro gen' s hs
      exact split_small gen' (hbound s hs)

/-- C7 witness: the split specification instantiated at a three-account
batch and `max_size = 2`. -/
theorem batch_split_spec_witness :
    (1 : Int) ≤ 2 ∧
    (((batchThree.accounts.length : Int) ≤ 2 →
      Batch.split batchThree 2 genIdx = some [batchThree]) ∧
    ((2 : Int) < (batchThree.accounts.length : Int) →
      ∃ subs, Batch.split batchThree 2 genIdx = some subs ∧
        (subs.map Batch.accounts).flatten = batchThree.accounts ∧
        (∀ s ∈ subs, (s.accounts.length : Int) ≤ 2) ∧
        (∀ s ∈ subs, s.metadata = batchThree.metadata) ∧
        subs.map Batch.batch_id = (List.range subs.length).map genIdx ∧
        (Function.Injective genIdx → (subs.map Batch.batch_id).Nodup) ∧
        (∀ gen' : Nat → String, ∀ s ∈ subs,
          Batch.split s 2 gen' = some [s]))) :=
  ⟨by decide, batch_split_spec batchThree 2 genIdx (by decide)⟩

/-- C10 (confirmed): `split` is total only for positive `max_size`: on any
batch with at least one account, `max_size = 0` raises (`range` step
zero, modelled as `none`), and a negative `max_size` yields an empty list
of sub-batches, silently dropping every account. -/
theorem split_degenerate_maxsize (b : Batch) (gen gen' : Nat → String)
    (m : Int) (hne : 1 ≤ b.accounts.length) (hm : m < 0) :
    Batch.split b 0 gen = none ∧ Batch.split b m gen' = some [] := by
  constructor
  · unfold Batch.split
    rw [if_neg (by omega), if_pos rfl]
  · unfold Batch.split
    rw [if_neg (by omega), if_neg (by omega), if_pos hm]

/-- With no PENDING result in the list, the three counted statuses add up
to the list's length. -/
theorem count_statuses_total (results : List ValidationResult)
    (hp : ∀ r ∈ results, r.status ≠ ValidationStatus.pending) :
    results.countP (fun r => r.status == ValidationStatus.valid) +
      results.countP (fun r => r.status == ValidationStatus.invalid) +
      results.countP (fun r => r.status == ValidationStatus.error) =
      results.length := by
  induction results with
  | nil => rfl
  | cons r rs ih =>
    have hr := hp r (List.mem_cons_self r rs)
    have ihh := ih fun x hx => hp x (List.mem_cons_of_mem r hx)
    simp only [List.countP_cons, List.length_cons]
    cases h : r.status with
    | valid => simp [h]; omega
    | invalid => simp [h]; omega
    | error => simp [h]; omega
    | pending => exact absurd h hr

/-- Bumping a code increments that code's count. -/
theorem codeCount_bump_self (c : String) (tbl : List (String × Nat)) :
    codeCount (bumpCode c tbl) c = codeCount tbl c + 1 := by
  induction tbl with
  | nil => simp [bumpCode, codeCount]
  | cons p tbl ih =>
    obtain ⟨d, n⟩ := p
    by_cases hd : d = c
    · subst hd; simp [bumpCode, codeCount]
    · simp [bumpCode, hd, codeCount, ih]

/-- Bumping another code leaves a code's count unchanged. -/
theorem codeCount_bump_ne {d c : String} (hdc : d ≠ c)
    (tbl : List (String × Nat)) :
    codeCount (bumpCode d tbl) c = codeCount tbl c := by
  induction tbl with
  | nil => simp [bumpCode, codeCount, hdc]
  | cons p tbl ih =>
    obtain ⟨e, n⟩ := p
    by_cases he : e = d
    · subst he; simp [bumpCode, codeCount, hdc]
    · by_cases hec : e = c
      · simp [bumpCode, he, codeCount, hec, Ne.symm hdc]
      · simp [bumpCode, he, codeCount, hec, ih]

/-- One `statStep` changes the count of a non-empty code `c` exactly when
the result is INVALID or ERROR and carries code `c`. -/
theorem statStep_codeCount (c : String) (hc : c ≠ "")
    (acc : List (String × Nat)) (r : ValidationResult) :
    codeCount (statStep acc r) c =
      codeCount acc c +
        (if (r.status == ValidationStatus.invalid
              || r.status == ValidationStatus.error)
            && r.error_code == some c then 1 else 0) := by
  unfold statStep
  cases he : r.error_code with
  | none => simp [codeTruthy]
  | some d =>
    by_cases hs : (r.status == ValidationStatus.invalid
        || r.status == ValidationStatus.error) = true
    · by_cases hd : d = c
      · subst hd
        have hct : codeTruthy (some d) = true := by
          simp only [codeTruthy, bne_iff_ne, ne_eq]
          exact hc
        simp [hs, hct, codeCount_bump_self]
      · by_cases hdt : codeTruthy (some d) = true
        · simp [hs, hdt, Option.getD, codeCount_bump_ne hd, hd]
        · simp only [Bool.not_eq_true] at hdt
          simp [hs, hdt, hd]
    · simp only [Bool.not_eq_true] at hs
      simp [hs]

/-- The error-code table of `get_statistics` counts, for each non-empty
code, the INVALID and ERROR results carrying that code. -/
theorem groupErrorCodes_count (c : String) (hc : c ≠ "")
    (results : List ValidationResult) :
    codeCount (groupErrorCodes results) c =
      results.countP (fun r =>
        (r.status == ValidationStatus.invalid
          || r.status == ValidationStatus.error)
        && r.error_code == some c) := by
  have haux : ∀ acc, codeCount (results.foldl statStep acc) c =
      codeCount acc c +
        results.countP (fun r =>
          (r.status == ValidationStatus.invalid
            || r.status == ValidationStatus.error)
          && r.error_code == some c) := by
    induction results with
    | nil => intro acc; simp
    | cons r rs ih =>
      intro acc
      simp only [List.foldl_cons, List.countP_cons, ih,
        statStep_codeCount c hc acc r]
      omega
  have h0 := haux []
  simpa [groupErrorCodes, codeCount] using h0

/-- Result with the PENDING status (constructible since the source enum
has it, though the pipeline never produces it). -/
def pendingResult : ValidationResult :=
  { account := acctJohn, status := .pending }

/-- C9 counterexample: on a list containing a PENDING result the three
counted statuses do not add up to the total. -/
theorem statistics_claim_cex :
    (getStatistics [pendingResult]).total = 1 ∧
    (getStatistics [pendingResult]).valid +
      (getStatistics [pendingResult]).invalid +
      (getStatistics [pendingResult]).error = 0 := by
  decide

/-- C9 (corrected): for every result list containing no PENDING result (as
the pipeline produces), `get_statistics` returns `total` equal to the
list's length, counts with `valid + invalid + error = total`, each
percentage equal to `count / total * 100` (and 0 when the list is empty),
and a frequency table giving, for each non-empty error code, the number of
INVALID and ERROR results carrying that code. -/
theorem statistics_spec (results : List ValidationResult)
    (hp : ∀ r ∈ results, r.status ≠ ValidationStatus.pending)
    (c : String) (hc : c ≠ "") :
    (getStatistics results).total = results.length ∧
    (getStatistics results).valid + (getStatistics results).invalid +
      (getStatistics results).error = (getStatistics results).total ∧
    (0 < results.length →
      (getStatistics results).valid_percent =
        ((getStatistics results).valid : ℚ) / results.length * 100 ∧
      (getStatistics results).invalid_percent =
        ((getStatistics results).invalid : ℚ) / results.length * 100 ∧
      (getStatistics results).error_percent =
        ((getStatistics results).error : ℚ) / results.length * 100) ∧
    (results.length = 0 →
      (getStatistics results).valid_percent = 0 ∧
      (getStatistics results).invalid_percent = 0 ∧
      (getStatistics results).error_percent = 0) ∧
    codeCount (getStatistics results).error_codes c =
      results.countP (fun r =>
        (r.status == ValidationStatus.invalid
          || r.status == ValidationStatus.error)
        && r.error_code == some c) := by
  refine ⟨rfl, count_statuses_total results hp, ?_, ?_, ?_⟩
  · intro hpos
    refine ⟨?_, ?_, ?_⟩ <;> simp [getStatistics, hpos]
  · intro hzero
    refine ⟨?_, ?_, ?_⟩ <;> simp [getStatistics, hzero]
  · exact groupErrorCodes_count c hc results

/-- Concrete outcome list used by the statistics witness. -/
def statsSample : List ValidationResult :=
  [ { account := acctJohn, status := .valid },
    { account := acctJohn, status := .invalid, error_code := some "X" },
    { account := acctJohn, status := .error, error_code := some "X" },
    { account := acctJohn, status := .invalid } ]

/-- C9 witness: the statistics specification instantiated at a concrete
four-outcome list and the code `"X"`. -/
theorem statistics_spec_witness :
    (∀ r ∈ statsSample, r.status ≠ ValidationStatus.pending) ∧
    ((getStatistics statsSample).total = statsSample.length ∧
      (getStatistics statsSample).valid + (getStatistics statsSample).invalid +
        (getStatistics statsSample).error = (getStatistics statsSample).total ∧
      (0 < statsSample.length →
        (getStatistics statsSample).valid_percent =
          ((getStatistics statsSample).valid : ℚ) / statsSample.length * 100 ∧
        (getStatistics statsSample).invalid_percent =
          ((getStatistics statsSample).invalid : ℚ) / statsSample.length * 100 ∧
        (getStatistics statsSample).error_percent =
          ((getStatistics statsSample).error : ℚ) / statsSample.length * 100) ∧
      (statsSample.length = 0 →
        (getStatistics statsSample).valid_percent = 0 ∧
        (getStatistics statsSample).invalid_percent = 0 ∧
        (getStatistics statsSample).error_percent = 0) ∧
      codeCount (getStatistics statsSample).error_codes "X" =
        statsSample.countP (fun r =>
          (r.status == ValidationStatus.invalid
            || r.status == ValidationStatus.error)
          && r.error_code == some "X")) :=
  ⟨by decide, statistics_spec statsSample (by decide) "X" (by decide)⟩

/-- C10 witness: instantiated at a one-account batch with `max_size = 0`
and `max_size = -1`. -/
theorem split_degenerate_maxsize_witness :
    1 ≤ batchOne.accounts.length ∧ (-1 : Int) < 0 ∧
    (Batch.split batchOne 0 genIdx = none ∧
      Batch.split batchOne (-1) genIdx = some []) :=
  ⟨by decide, by decide,
    split_degenerate_maxsize batchOne genIdx genIdx (-1) (by decide)
      (by decide)⟩

/-- `pre_validate_batch` partitions by the format check, preserving
order. -/
theorem preValidateBatch_eq (l : List Account) :
    preValidateBatch l =
      (l.filter validateFormat, l.filter fun a => !validateFormat a) := by
  induction l with
  | nil => rfl
  | cons a l ih =>
    rw [preValidateBatch, ih]
    by_cases h : validateFormat a <;> simp [List.filter_cons, h]

/-- The two parts of a boolean partition account for the whole list. -/
theorem filter_split_length {α : Type} (p : α → Bool) (l : List α) :
    (l.filter p).length + (l.filter fun a => !p a).length = l.length := by
  induction l with
  | nil => rfl
  | cons a l ih => by_cases h : p a <;> simp [List.filter_cons, h] <;> omega

/-- `validate_single` returns a result for the requested account. -/
theorem validateSingle_fst_account (t : Account → Nat → Attempt)
    (ccfg : ClientCfg) (a : Account) :
    ((validateSingle t ccfg a).1).account = a := by
  unfold validateSingle
  by_cases h : validateFormat a
  · simp [h, validateAccount_account]
  · simp [h]

/-- `validate_single` logs a network call exactly for accounts that pass
the format pre-check. -/
theorem validateSingle_snd (t : Account → Nat → Attempt) (ccfg : ClientCfg)
    (a : Account) :
    (validateSingle t ccfg a).2 = if validateFormat a then [a] else [] := by
  unfold validateSingle
  by_cases h : validateFormat a <;> simp [h]

/-- Accounts in a `validate_single` log passed the format pre-check. -/
theorem mem_validateSingle_log {t : Account → Nat → Attempt}
    {ccfg : ClientCfg} {a x : Account}
    (hx : x ∈ (validateSingle t ccfg a).2) : validateFormat x = true := by
  rw [validateSingle_snd] at hx
  by_cases hf : validateFormat a
  · rw [if_pos hf] at hx
    cases List.mem_singleton.mp hx
    exact hf
  · rw [if_neg hf] at hx
    simp at hx

/-- `validate_batch` produces one result per submitted account, in both
modes. -/
theorem validateBatch_length (t : Account → Nat → Attempt)
    (ccfg : ClientCfg) (par : Bool) {sched : List Account → List Nat}
    (hsched : SchedOK sched) (accounts : List Account) :
    (validateBatch t ccfg par sched accounts).1.length = accounts.length := by
  unfold validateBatch
  cases par with
  | false => simp
  | true => simp [(hsched accounts).length_eq]

/-- Every account in a `validate_batch` network-call log passed the format
pre-check. -/
theorem validateBatch_log (t : Account → Nat → Attempt) (ccfg : ClientCfg)
    (par : Bool) (sched : List Account → List Nat)
    (accounts : List Account) :
    ∀ x ∈ (validateBatch t ccfg par sched accounts).2,
      validateFormat x = true := by
  intro x hx
  unfold validateBatch at hx
  cases par with
  | false =>
    simp only [Bool.not_false, if_true, List.map_map, List.mem_flatten,
      List.mem_map, Function.comp_apply] at hx
    obtain ⟨l, ⟨a, _, rfl⟩, hxl⟩ := hx
    exact mem_validateSingle_log hxl
  | true =>
    simp only [Bool.not_true, Bool.false_eq_true, if_false, List.map_map,
      List.mem_flatten, List.mem_map, Function.comp_apply] at hx
    obtain ⟨l, ⟨i, _, rfl⟩, hxl⟩ := hx
    exact mem_validateSingle_log hxl

/-- Every result produced by `validate_batch` is for one of the submitted
accounts. -/
theorem validateBatch_fst_accounts (t : Account → Nat → Attempt)
    (ccfg : ClientCfg) (par : Bool) {sched : List Account → List Nat}
    (hsched : SchedOK sched) (accounts : List Account) :
    ∀ r ∈ (validateBatch t ccfg par sched accounts).1,
      r.account ∈ accounts := by
  intro r hr
  unfold validateBatch at hr
  cases par with
  | false =>
    simp only [Bool.not_false, if_true, List.map_map, List.mem_map,
      Function.comp_apply] at hr
    obtain ⟨a, ha, rfl⟩ := hr
    rw [validateSingle_fst_account]
    exact ha
  | true =>
    simp only [Bool.not_true, Bool.false_eq_true, if_false, List.map_map,
      List.mem_map, Function.comp_apply] at hr
    obtain ⟨i, hi, rfl⟩ := hr
    rw [validateSingle_fst_account]
    have hmem : i ∈ List.range accounts.length := (hsched accounts).mem_iff.mp hi
    have hilt : i < accounts.length := List.mem_range.mp hmem
    rw [List.getD_eq_getElem accounts default hilt]
    exact List.getElem_mem hilt

/-- `validate_batch` on an empty list yields no result and no call. -/
theorem validateBatch_nil (t : Account → Nat → Attempt) (ccfg : ClientCfg)
    (par : Bool) {sched : List Account → List Nat}
    (hsched : SchedOK sched) :
    validateBatch t ccfg par sched [] = ([], []) := by
  unfold validateBatch
  cases par with
  | false => rfl
  | true =>
    have h0 := hsched []
    rw [List.length_nil, List.range_zero] at h0
    rw [h0.eq_nil]
    rfl

/-- `split` with a `Nat`-valued `max_size`, as the processor calls it. -/
theorem split_big_nat {b : Batch} {m : Nat} (gen : Nat → String)
    (h1 : 1 ≤ m) (h2 : m < b.accounts.length) :
    Batch.split b (m : Int) gen =
      some (mkSubBatches gen b.metadata 0 (chunksPos (m - 1) b.accounts)) := by
  have h := @split_big b (m : Int) gen
    (by exact_mod_cast h1) (by exact_mod_cast h2)
  rwa [Int.toNat_natCast] at h

/-- Sequencing the sub-batch runs: when every sub-batch run succeeds with
the invariants, the sequenced run succeeds and the concatenated results
keep them. -/
theorem seqOpts_props
    (g : Batch → Option (List ValidationResult × List Account))
    (ss : List Batch)
    (h : ∀ s ∈ ss, ∃ rs log, g s = some (rs, log) ∧
      rs.length = s.accounts.length ∧
      (∀ x ∈ log, validateFormat x = true) ∧
      (∀ a ∈ s.accounts, validateFormat a = false →
        invalidFormatResult a ∈ rs)) :
    ∃ pairs, seqOpts (ss.map g) = some pairs ∧
      (pairs.map Prod.fst).flatten.length =
        ((ss.map Batch.accounts).flatten).length ∧
      (∀ x ∈ (pairs.map Prod.snd).flatten, validateFormat x = true) ∧
      (∀ a ∈ (ss.map Batch.accounts).flatten, validateFormat a = false →
        invalidFormatResult a ∈ (pairs.map Prod.fst).flatten) := by
  induction ss with
  | nil => exact ⟨[], rfl, rfl, by simp, by simp⟩
  | cons s ss ihs =>
    obtain ⟨rs, log, hg, hlen, hlog, hmem⟩ := h s (List.mem_cons_self s ss)
    obtain ⟨pairs, hseq, hplen, hplog, hpmem⟩ :=
      ihs fun x hx => h x (List.mem_cons_of_mem s hx)
    refine ⟨(rs, log) :: pairs, ?_, ?_, ?_, ?_⟩
    · simp only [List.map_cons, seqOpts, hg, hseq]
      rfl
    · simp only [List.map_cons, List.flatten_cons, List.length_append,
        hlen, hplen]
    · intro x hx
      simp only [List.map_cons, List.flatten_cons, List.mem_append] at hx
      rcases hx with h1 | h1
      · exact hlog x h1
      · exact hplog x h1
    · intro a ha hfa
      simp only [List.map_cons, List.flatten_cons, List.mem_append] at ha ⊢
      rcases ha with h1 | h1
      · exact Or.inl (hmem a h1 hfa)
      · exact Or.inr (hpmem a h1 hfa)

/-- Main pipeline invariant, by induction on the fuel: with a positive
maximum batch size and a well-formed scheduler, `process_batch` returns
one result per account of the batch, logs network calls only for
format-passing accounts, and gives every format-failing account its
INVALID `INVALID_FORMAT` result. -/
theorem processBatchGo_spec (cfg : ProcCfg) (ccfg : ClientCfg)
    (t : Account → Nat → Attempt) {sched : List Account → List Nat}
    (gen : Nat → String) (hmax : 1 ≤ cfg.maxBatchSize)
    (hsched : SchedOK sched) :
    ∀ fuel b, b.accounts.length < fuel →
      ∃ rs log,
        processBatchGo cfg ccfg t sched gen fuel b = some (rs, log) ∧
        rs.length = b.accounts.length ∧
        (∀ x ∈ log, validateFormat x = true) ∧
        (∀ a ∈ b.accounts, validateFormat a = false →
          invalidFormatResult a ∈ rs) := by
  intro fuel
  induction fuel with
  | zero => intro b hb; omega
  | succ f ih =>
    intro b hb
    by_cases hgt : cfg.maxBatchSize < b.accounts.length
    · have hsplit := @split_big_nat b cfg.maxBatchSize gen hmax hgt
      have hflat : ((mkSubBatches gen b.metadata 0
          (chunksPos (cfg.maxBatchSize - 1) b.accounts)).map
            Batch.accounts).flatten = b.accounts := by
        rw [mkSubBatches_map_accounts, chunksPos_flatten]
      obtain ⟨pairs, hseq, hplen, hplog, hpmem⟩ :=
        seqOpts_props (processBatchGo cfg ccfg t sched gen f)
          (mkSubBatches gen b.metadata 0
            (chunksPos (cfg.maxBatchSize - 1) b.accounts))
          (by
            intro s hs
            apply ih
            have hmem := mkSubBatches_mem_accounts gen b.metadata 0 _ s hs
            have hlen := chunksPos_mem_length (cfg.maxBatchSize - 1)
              b.accounts s.accounts hmem
            omega)
      refine ⟨(pairs.map Prod.fst).flatten, (pairs.map Prod.snd).flatten,
        ?_, ?_, hplog, ?_⟩
      · rw [processBatchGo, if_pos hgt, hsplit]
        dsimp only
        rw [hseq]
      · rw [hplen, hflat]
      · intro a ha hfa
        exact hpmem a (by rw [hflat]; exact ha) hfa
    · push_neg at hgt
      rw [processBatchGo, if_neg (by omega)]
      refine ⟨_, _, rfl, ?_, ?_, ?_⟩
      · rw [List.length_append, List.length_map,
          validateBatch_length t ccfg cfg.enableParallel hsched,
          preValidateBatch_eq]
        dsimp only
        rw [Nat.add_comm]
        exact filter_split_length validateFormat b.accounts
      · exact validateBatch_log t ccfg cfg.enableParallel sched _
      · intro a ha hfa
        apply List.mem_append_left
        apply List.mem_map_of_mem
        rw [preValidateBatch_eq]
        dsimp only
        rw [List.mem_filter]
        exact ⟨ha, by rw [hfa]; rfl⟩

/-- The pipeline invariant at the fuel `process_batch` actually uses. -/
theorem processBatch_spec (cfg : ProcCfg) (ccfg : ClientCfg)
    (t : Account → Nat → Attempt) {sched : List Account → List Nat}
    (gen : Nat → String) (hmax : 1 ≤ cfg.maxBatchSize)
    (hsched : SchedOK sched) (b : Batch) :
    ∃ rs log, processBatch cfg ccfg t sched gen b = some (rs, log) ∧
      rs.length = b.accounts.length ∧
      (∀ x ∈ log, validateFormat x = true) ∧
      (∀ a ∈ b.accounts, validateFormat a = false →
        invalidFormatResult a ∈ rs) :=
  processBatchGo_spec cfg ccfg t gen hmax hsched
    (b.accounts.length + 1) b (by omega)

/-- C1 (confirmed): for every list of accounts (including the empty list),
with a positive maximum batch size and a well-formed thread-pool
scheduler, `process` returns exactly one `ValidationResult` per input
account — none lost or duplicated — regardless of batch splitting,
pre-validation partitioning, and sequential or parallel mode. -/
theorem process_preserves_length (cfg : ProcCfg) (ccfg : ClientCfg)
    (t : Account → Nat → Attempt) {sched : List Account → List Nat}
    (gen : Nat → String) (accounts : List Account)
    (hmax : 1 ≤ cfg.maxBatchSize) (hsched : SchedOK sched) :
    ∃ rs log, process cfg ccfg t sched gen accounts = some (rs, log) ∧
      rs.length = accounts.length := by
  unfold process
  by_cases hemp : accounts.isEmpty
  · rw [if_pos hemp]
    refine ⟨[], [], rfl, ?_⟩
    rw [List.isEmpty_iff.mp hemp]
    rfl
  · rw [if_neg hemp]
    obtain ⟨rs, log, h1, h2, _, _⟩ := processBatch_spec cfg ccfg t gen
      hmax hsched { accounts := accounts }
    exact ⟨rs, log, h1, h2⟩

/-- Mixed five-account list exercising splitting, partitioning and the
parallel coordinator. -/
def sampleAccounts : List Account :=
  [acctBadA, acctGoodMid, acctBadB, acctJohn, acctIntNumber]

/-- C1 witness: instantiated with parallel mode, `max_batch_size = 2`, a
reversed completion order and a five-account input. -/
theorem process_preserves_length_witness :
    1 ≤ procCfgPar2.maxBatchSize ∧
    (∃ rs log, process procCfgPar2 cfgDefault tValid schedRev genIdx
        sampleAccounts = some (rs, log) ∧
      rs.length = sampleAccounts.length) :=
  ⟨by decide, process_preserves_length procCfgPar2 cfgDefault tValid genIdx
    sampleAccounts (by decide) fun l => (List.range l.length).reverse_perm⟩

/-- C4 counterexample: an account whose account number is the truthy
non-textual value `123` is not rejected by the pipeline's format
pre-check (`AccountValidator._validate_format` checks truthiness only),
and a one-account run does issue a network call for it; only the unused
`Account.validate_format` checks textuality. -/
theorem format_precheck_claim_cex :
    validateFormat acctIntNumber = true ∧
    (process procCfgSeq cfgDefault tValid schedId genIdx
        [acctIntNumber]).map Prod.snd = some [acctIntNumber] ∧
    Account.validate_format acctIntNumber = false := by
  decide

/-- C4 (corrected): for every account whose account number or bank code is
Python-falsy (missing/`None`, empty string, or zero) — the check the
pipeline actually performs — the format pre-check rejects it, the pipeline
assigns it an INVALID outcome with error code `INVALID_FORMAT`, and no
network call is attempted for that account.  Truthiness is the whole
check, so a truthy non-textual account number or bank code is not
rejected. -/
theorem malformed_account_rejected (cfg : ProcCfg) (ccfg : ClientCfg)
    (t : Account → Nat → Attempt) {sched : List Account → List Nat}
    (gen : Nat → String) (accounts : List Account)
    (hmax : 1 ≤ cfg.maxBatchSize) (hsched : SchedOK sched)
    (a : Account) (ha : a ∈ accounts)
    (hbad : a.account_number.truthy = false ∨ a.bank_code.truthy = false) :
    validateFormat a = false ∧
    ∃ rs log, process cfg ccfg t sched gen accounts = some (rs, log) ∧
      invalidFormatResult a ∈ rs ∧ a ∉ log := by
  have hfa : validateFormat a = false := by
    unfold validateFormat
    rcases hbad with h | h <;> simp [h]
  refine ⟨hfa, ?_⟩
  unfold process
  have hne : accounts.isEmpty = false := by
    cases accounts
    · cases ha
    · rfl
  rw [if_neg (by simp [hne])]
  obtain ⟨rs, log, h1, _, h3, h4⟩ := processBatch_spec cfg ccfg t gen
    hmax hsched { accounts := accounts }
  refine ⟨rs, log, h1, h4 a ha hfa, ?_⟩
  intro hmem
  simp [h3 a hmem] at hfa

/-- C4 witness: the malformed-rejection theorem instantiated at a
two-account list whose first account has an empty account number. -/
theorem malformed_account_rejected_witness :
    (acctBadA.account_number.truthy = false ∨
      acctBadA.bank_code.truthy = false) ∧
    (validateFormat acctBadA = false ∧
      ∃ rs log, process procCfgSeq cfgDefault tValid schedId genIdx
          [acctBadA, acctJohn] = some (rs, log) ∧
        invalidFormatResult acctBadA ∈ rs ∧ acctBadA ∉ log) :=
  ⟨by decide, malformed_account_rejected procCfgSeq cfgDefault tValid genIdx
    [acctBadA, acctJohn] (by decide) (fun l => List.Perm.refl _)
    acctBadA (by decide) (by decide)⟩

/-- A list of results for well-formed accounts satisfies the
malformed-first ordering. -/
theorem malformedFirstB_wellformed {ys : List ValidationResult}
    (hy : ∀ r ∈ ys, validateFormat r.account = true) :
    malformedFirstB ys = true := by
  induction ys with
  | nil => rfl
  | cons r rest ih =>
    rw [malformedFirstB]
    have h1 : rest.all (fun r2 => validateFormat r2.account) = true := by
      rw [List.all_eq_true]
      intro r2 hr2
      exact hy r2 (List.mem_cons_of_mem r hr2)
    rw [h1, ih fun x hx => hy x (List.mem_cons_of_mem r hx)]
    simp

/-- Malformed-account results followed by well-formed-account results
satisfy the malformed-first ordering. -/
theorem malformedFirstB_append {xs ys : List ValidationResult}
    (hx : ∀ r ∈ xs, validateFormat r.account = false)
    (hy : ∀ r ∈ ys, validateFormat r.account = true) :
    malformedFirstB (xs ++ ys) = true := by
  induction xs with
  | nil => simpa using malformedFirstB_wellformed hy
  | cons r rest ih =>
    rw [List.cons_append, malformedFirstB,
      hx r (List.mem_cons_self r rest),
      ih fun x hxm => hx x (List.mem_cons_of_mem r hxm)]
    simp

/-- C8 (corrected): when the input does not exceed the maximum batch size
(so no splitting occurs), `process` partitions the records by the format
pre-check and returns the malformed records' INVALID `INVALID_FORMAT`
outcomes, in input order, followed by the coordinator outcomes of the
well-formed records — every malformed-record outcome before every
coordinator-produced outcome.  When the input is split, each sub-batch is
partitioned separately and this ordering holds only within each
sub-batch. -/
theorem process_partition_order (cfg : ProcCfg) (ccfg : ClientCfg)
    (t : Account → Nat → Attempt) {sched : List Account → List Nat}
    (gen : Nat → String) (accounts : List Account)
    (hsched : SchedOK sched)
    (hle : accounts.length ≤ cfg.maxBatchSize) :
    process cfg ccfg t sched gen accounts =
      some ((accounts.filter fun a => !validateFormat a).map
          invalidFormatResult
          ++ (validateBatch t ccfg cfg.enableParallel sched
              (accounts.filter validateFormat)).1,
        (validateBatch t ccfg cfg.enableParallel sched
          (accounts.filter validateFormat)).2) ∧
    (∀ rs log, process cfg ccfg t sched gen accounts = some (rs, log) →
      malformedFirstB rs = true) := by
  have heq : process cfg ccfg t sched gen accounts =
      some ((accounts.filter fun a => !validateFormat a).map
          invalidFormatResult
          ++ (validateBatch t ccfg cfg.enableParallel sched
              (accounts.filter validateFormat)).1,
        (validateBatch t ccfg cfg.enableParallel sched
          (accounts.filter validateFormat)).2) := by
    unfold process
    by_cases hemp : accounts.isEmpty
    · rw [if_pos hemp]
      have hnil : accounts = [] := List.isEmpty_iff.mp hemp
      subst hnil
      rw [List.filter_nil, List.filter_nil,
        validateBatch_nil t ccfg cfg.enableParallel hsched]
      rfl
    · rw [if_neg hemp]
      rw [processBatch, processBatchGo,
        if_neg (show ¬cfg.maxBatchSize < accounts.length by omega),
        preValidateBatch_eq]
  refine ⟨heq, ?_⟩
  intro rs log hrl
  rw [heq] at hrl
  injection hrl with hpair
  have hrs : rs = (accounts.filter fun a => !validateFormat a).map
      invalidFormatResult
      ++ (validateBatch t ccfg cfg.enableParallel sched
          (accounts.filter validateFormat)).1 :=
    (congrArg Prod.fst hpair).symm
  rw [hrs]
  apply malformedFirstB_append
  · intro r hr
    simp only [List.mem_map] at hr
    obtain ⟨a, hafil, rfl⟩ := hr
    have hff : validateFormat a = false := by
      have h2 := (List.mem_filter.mp hafil).2
      simpa using h2
    simpa [invalidFormatResult] using hff
  · intro r hr
    have hacc := validateBatch_fst_accounts t ccfg cfg.enableParallel
      hsched _ r hr
    exact (List.mem_filter.mp hacc).2

/-- C8 counterexample: three accounts [malformed, well-formed, malformed]
with `max_batch_size = 2`: `process` splits before pre-validating, so the
second sub-batch's malformed INVALID outcome appears after the
coordinator-produced VALID outcome of the well-formed account — the
malformed-first ordering over the whole result list fails. -/
theorem process_partition_order_cex :
    process procCfgSeq2 cfgDefault tValid schedId genIdx
        [acctBadA, acctGoodMid, acctBadB] =
      some ([invalidFormatResult acctBadA,
        { account := acctGoodMid, status := .valid,
          validated_name := some "John Doe",
          account_status := some "ACTIVE",
          bank_name := some "PesaBank" },
        invalidFormatResult acctBadB], [acctGoodMid]) ∧
    (process procCfgSeq2 cfgDefault tValid schedId genIdx
        [acctBadA, acctGoodMid, acctBadB]).map
      (fun p => malformedFirstB p.1) = some false := by
  decide

/-- C8 witness: the no-split partition theorem instantiated at a
three-account list with the default maximum batch size. -/
theorem process_partition_order_witness :
    [acctBadA, acctGoodMid, acctBadB].length ≤ procCfgSeq.maxBatchSize ∧
    (process procCfgSeq cfgDefault tValid schedId genIdx
        [acctBadA, acctGoodMid, acctBadB] =
      some (([acctBadA, acctGoodMid, acctBadB].filter
            fun a => !validateFormat a).map invalidFormatResult
          ++ (validateBatch tValid cfgDefault procCfgSeq.enableParallel
              schedId ([acctBadA, acctGoodMid, acctBadB].filter
                validateFormat)).1,
        (validateBatch tValid cfgDefault procCfgSeq.enableParallel schedId
          ([acctBadA, acctGoodMid, acctBadB].filter validateFormat)).2) ∧
    (∀ rs log, process procCfgSeq cfgDefault tValid schedId genIdx
        [acctBadA, acctGoodMid, acctBadB] = some (rs, log) →
      malformedFirstB rs = true)) :=
  ⟨by decide, process_partition_order procCfgSeq cfgDefault tValid genIdx
    [acctBadA, acctGoodMid, acctBadB] (fun l => List.Perm.refl _)
    (by decide)⟩

end PesaLink
